import Mathlib

/-!
Shallow embedding of the IssueScraper pipeline (src/app.ts) and proofs of
the specification's claims about it.  External collaborators (the GitHub
REST/GraphQL services, the markdown renderer `marked`, the embedding
service) are modelled as function parameters; everything the repository
itself computes is translated directly from the source.
-/

/-! ### Characters and the text normalizer (src/app.ts lines 21-45) -/

def quoteChar : Char := Char.ofNat 34

/-- The JS regex range x20-x7E of `cleanText`. -/
def isPrintableAscii (c : Char) : Bool :=
  0x20 ≤ c.toNat && c.toNat ≤ 0x7E

/-- The JS regex class s (whitespace) appearing in cleanText's character
class: tab, LF, VT, FF, CR, space, NBSP, Ogham space, the U+2000-200A
range, LS, PS, NNBSP, MMSP, ideographic space, BOM. -/
def isJsWhitespace (c : Char) : Bool :=
  c.toNat == 0x9 || c.toNat == 0xA || c.toNat == 0xB || c.toNat == 0xC ||
  c.toNat == 0xD || c.toNat == 0x20 || c.toNat == 0xA0 || c.toNat == 0x1680 ||
  (0x2000 ≤ c.toNat && c.toNat ≤ 0x200A) ||
  c.toNat == 0x2028 || c.toNat == 0x2029 || c.toNat == 0x202F ||
  c.toNat == 0x205F || c.toNat == 0x3000 || c.toNat == 0xFEFF

/-- A character survives cleanText's first replace iff it is printable
ASCII or JS whitespace (the regex deletes the complement of that class). -/
def keepChar (c : Char) : Bool := isPrintableAscii c || isJsWhitespace c

/-- cleanText's second replace: double every double-quote character. -/
def escQuotes : List Char → List Char
  | [] => []
  | c :: rest =>
    if c = quoteChar then quoteChar :: quoteChar :: escQuotes rest
    else c :: escQuotes rest

/-- `cleanText` (src/app.ts:28-35): empty string on falsy input (`none`
models null/undefined, the empty string is the only falsy string); else
delete characters outside printable-ASCII-plus-whitespace, then double
every double quote. -/
def cleanText : Option String → String
  | none => ""
  | some s => if s = "" then "" else String.mk (escQuotes (s.data.filter keepChar))

/-- Number of double-quote characters in a character list. -/
def countQ : List Char → Nat
  | [] => 0
  | c :: rest => (if c = quoteChar then 1 else 0) + countQ rest

/-- Every double quote in the list is immediately followed by a partner
quote, i.e. quotes occur only in adjacent pairs. -/
def quotesDoubled : List Char → Bool
  | [] => true
  | [c] => !(c == quoteChar)
  | c :: c2 :: rest =>
    if c = quoteChar then (c2 == quoteChar) && quotesDoubled rest
    else quotesDoubled (c2 :: rest)

/-- Helper for JS `String.prototype.includes`: does the second list occur
at the head of the first? -/
def listStartsWith : List Char → List Char → Bool
  | _, [] => true
  | [], _ :: _ => false
  | a :: as, p :: ps => a == p && listStartsWith as ps

/-- Does the second list occur contiguously anywhere inside the first? -/
def containsSub : List Char → List Char → Bool
  | [], p => p.isEmpty
  | a :: as, p => listStartsWith (a :: as) p || containsSub as p

/-- JS `s.includes(sub)`. -/
def includes (s sub : String) : Bool := containsSub s.data sub.data

/-- The fixed boilerplate list of `removeSpecificWords` (src/app.ts:21-26). -/
def specificWords : List String :=
  ["/start", "/stop",
   "- Be sure to open a draft pull request as soon as possible to communicate updates on your progress.",
   "- Be sure to provide timely updates to us when requested, or you will be automatically unassigned from the task."]

/-- `removeSpecificWords` (src/app.ts:21-26): empty string if the text
contains any boilerplate phrase, otherwise the text unchanged. -/
def removeSpecificWords (text : String) : String :=
  if specificWords.any (fun word => includes text word) then "" else text

/-! ### cleanMarkdown (src/app.ts:37-41); `marked` is external -/

/-- Match a JS regex tag body after an opening angle bracket: at least one
non-gt character followed by a closing angle bracket.  Returns the
remainder after the closing bracket when the pattern matches. -/
def splitTag (l : List Char) : Option (List Char) :=
  match l.dropWhile (fun x => x != '>') with
  | [] => none
  | _ :: tail => if (l.takeWhile (fun x => x != '>')).isEmpty then none else some tail

/-- Fuel-indexed global replace of the non-greedy tag pattern with the
empty string; fuel bounded by the input length suffices because each step
consumes at least one character. -/
def stripTagsAux : Nat → List Char → List Char
  | 0, l => l
  | _ + 1, [] => []
  | fuel + 1, c :: rest =>
    if c = '<' then
      match splitTag rest with
      | some tail => stripTagsAux fuel tail
      | none => c :: stripTagsAux fuel rest
    else c :: stripTagsAux fuel rest

def stripTags (l : List Char) : List Char := stripTagsAux l.length l

/-- `cleanMarkdown` (src/app.ts:37-41): falsy guard, render through the
external `marked`, then strip every angle-bracket tag. -/
def cleanMarkdown (markedFn : String → String) : Option String → String
  | none => ""
  | some t => if t = "" then "" else String.mk (stripTags (markedFn t).data)

/-! ### Embedding adapter and author lookup (src/app.ts:43-63) -/

/-- `formatEmbedding` (src/app.ts:43-45): bracketed, comma-space joined.
Vector entries are modelled as integers; their rendering is irrelevant to
every claim. -/
def joinSep (sep : String) : List String → String
  | [] => ""
  | [x] => x
  | x :: y :: rest => x ++ sep ++ joinSep sep (y :: rest)

def formatEmbedding (embedding : List Int) : String :=
  "[" ++ joinSep ", " (embedding.map toString) ++ "]"

/-- `extractEmbeddings` (src/app.ts:47-53): the embedding-service response
is `response.data` (possibly absent), a list of data items each possibly
missing its `embedding` field.  The source returns
`(response.data && response.data[0]?.embedding) || []`: the first
embedding when present, the empty vector otherwise. -/
def extractEmbeddings : Option (List (Option (List Int))) → List Int
  | none => []
  | some [] => []
  | some (none :: _) => []
  | some (some e :: _) => e

/-- `fetchAuthorId` (src/app.ts:55-63): the REST outcome is a parameter.
On success return the numeric id with no log; on any fetch error log the
error and return the sentinel -1.  The second component models the
console-error log. -/
def fetchAuthorId : Except String Int → Int × List String
  | Except.ok n => (n, [])
  | Except.error e => (-1, ["Error fetching author ID: " ++ e])

/-! ### Data model -/

/-- The payload built for PR-derived Conversation Items inside
`Issue.fetchPrData` (src/app.ts:196-205 and the two comment loops). -/
structure PrPayload where
  title : String
  body : String
  owner : String
  repo : String
  prNumber : Nat
  prUrl : String
deriving DecidableEq

/-- A Conversation Item's payload: the opaque REST issue payload
(`fetchPayloadIssue`), the opaque REST comment payload
(`fetchPayloadComment`), or the structured PR payload of `fetchPrData`. -/
inductive Payload where
  | issuePayload : String → Payload
  | commentPayload : String → Payload
  | pr : PrPayload → Payload
deriving DecidableEq

/-- A Conversation Item as produced by the Fetcher (the object literals of
`fetchAllRelatedData` and `fetchPrData`).  `text` is an Option because
GitHub bodies may be null. -/
structure ConvItem where
  id : String
  text : Option String
  issue_id : String
  userLogin : String
  payload : Payload
deriving DecidableEq

/-- An Enriched Entry: the object literal built in `processIssues`
(src/app.ts:357-367). -/
structure Entry where
  id : String
  plaintext : String
  embedding : List Int
  author_id : Int
  created_at : String
  modified_at : String
  markdown : String
  issue_id : String
  payload : Payload
deriving DecidableEq

/-- A seed issue record from the input JSON (the fields `processIssues`
and the `Issue` class read). -/
structure SeedIssue where
  number : Nat
  node_id : String
  body : Option String
  userLogin : String
  repository_url : String
  html_url : String
deriving DecidableEq

/-- The external collaborators of one run: the markdown renderer, the
embedding service's response for a given input text, the REST user-lookup
outcome for a given login, and the wall clock. -/
structure Env where
  markedFn : String → String
  embedResp : String → Option (List (Option (List Int)))
  authorResp : String → Except String Int
  now : String

/-- JS falsiness of the nullable string fields (`!issue.body`). -/
def isFalsyStr : Option String → Bool
  | none => true
  | some s => s == ""

/-! ### The Deduplicating Aggregator (src/app.ts:335-385) -/

/-- Building one Enriched Entry from a Conversation Item: the loop body of
`processIssues` (src/app.ts:353-367).  `issueNodeId` is the seed issue's
`node_id` (the code stores `issue.node_id`, not `item.issue_id`). -/
def enrich (env : Env) (issueNodeId : String) (item : ConvItem) : Entry :=
  let cleanedText := cleanMarkdown env.markedFn item.text
  { id := item.id
  , plaintext := cleanText (some cleanedText)
  , embedding := extractEmbeddings (env.embedResp cleanedText)
  , author_id := (fetchAuthorId (env.authorResp item.userLogin)).fst
  , created_at := env.now
  , modified_at := env.now
  , markdown := cleanText item.text
  , issue_id := issueNodeId
  , payload := item.payload }

/-- The routing predicate of src/app.ts:369:
`item.id.includes("PR") || item.id.includes("IC")`. -/
def routeToComments (id : String) : Bool := includes id "PR" || includes id "IC"

/-- The mutable run state of `processIssues`: the two output tables and
the two dedup identifier sets (src/app.ts:337-341).  The JS `Set<string>`
is modelled as a list queried by membership. -/
structure AggState where
  issueDataList : List Entry
  commentDataList : List Entry
  issueIds : List String
  commentIds : List String
deriving DecidableEq

def initState : AggState :=
  { issueDataList := [], commentDataList := [], issueIds := [], commentIds := [] }

/-- The classify-and-dedup step of src/app.ts:369-379. -/
def addEntry (st : AggState) (e : Entry) : AggState :=
  if routeToComments e.id then
    if e.id ∈ st.commentIds then st
    else { st with commentDataList := st.commentDataList ++ [e],
                   commentIds := e.id :: st.commentIds }
  else
    if e.id ∈ st.issueIds then st
    else { st with issueDataList := st.issueDataList ++ [e],
                   issueIds := e.id :: st.issueIds }

/-- The inner loop of `processIssues` (src/app.ts:353-380): enrich and
classify each fetched Conversation Item in order. -/
def processItems (env : Env) (nid : String) (st : AggState)
    (items : List ConvItem) : AggState :=
  items.foldl (fun s item => addEntry s (enrich env nid item)) st

/-- One iteration of the outer loop of `processIssues` (src/app.ts:343-381):
skip the seed when its body is falsy (before any fetching), otherwise fold
the fetched Conversation Items through enrichment and classification.  The
Fetcher is the parameter `fetchFn`. -/
def processSeed (env : Env) (fetchFn : SeedIssue → List ConvItem)
    (st : AggState) (seed : SeedIssue) : AggState :=
  if isFalsyStr seed.body then st
  else processItems env seed.node_id st (fetchFn seed)

/-- `processIssues` (src/app.ts:335-385) up to the final CSV writes. -/
def processIssues (env : Env) (fetchFn : SeedIssue → List ConvItem)
    (seeds : List SeedIssue) : AggState :=
  seeds.foldl (processSeed env fetchFn) initState

/-- The identifier column of a table. -/
def idsOf (l : List Entry) : List String := l.map Entry.id

/-! ### The GitHub Data Fetcher (src/app.ts:157-283)

The network responses are parameters.  `Issue.fetchAllRelatedData` pushes
the issue-body item, then iterates the REST issue comments with
`forEach(async comment => { const payload = await fetchPayloadComment(...);
allData.push(...) })` - each push happens only when its payload fetch
resolves, without being awaited by the enclosing function (fire and
forget), so a comment's item can land after PR blocks have been appended,
or after the array has been returned.  The PR loop itself is sequential
(`for ... of` with await), and inside `fetchPrData` every push runs
synchronously before the next.  The model therefore takes the issue
comments in the order their payload fetches RESOLVED - the push order,
which need not be the REST list order - each tagged with a slot: slot 0
means the fetch resolved before the associated-PRs fetch, slot j >= 1
means it resolved after the j-th PR block was appended; a slot beyond the
number of PR blocks means the push landed after the list was consumed, so
the item never appears.  Comments sharing a slot appear in their position
in that resolution-ordered list. -/

/-- A pull request as returned by the REST list (the fields
`fetchAssociatedPRs` and `fetchPrData` read). -/
structure PrRef where
  number : Nat
  html_url : String
  node_id : String
  baseRepoName : String
  body : Option String
deriving DecidableEq

/-- A comment node of the GraphQL PR query. -/
structure GqlComment where
  id : String
  body : String
  authorLogin : String
deriving DecidableEq

/-- A review thread node of the GraphQL PR query. -/
structure GqlThread where
  comments : List GqlComment
deriving DecidableEq

/-- The GraphQL pull-request node of `fetchPrDataGraphql`. -/
structure GqlPrData where
  id : String
  title : String
  body : String
  authorLogin : String
  comments : List GqlComment
  reviewThreads : List GqlThread
deriving DecidableEq

/-- A REST issue comment (the fields `fetchAllRelatedData` reads). -/
structure RestComment where
  node_id : String
  body : Option String
  userLogin : String
deriving DecidableEq

/-- `Issue.fetchAssociatedPRs` (src/app.ts:176-186): keep PRs whose body
mentions the seed issue by number token or by URL. -/
def fetchAssociatedPRs (seed : SeedIssue) (prs : List PrRef) : List PrRef :=
  prs.filter (fun pr =>
    match pr.body with
    | none => false
    | some b => includes b ("#" ++ toString seed.number) || includes b seed.html_url)

/-- The shared payload of every item `fetchPrData` produces. -/
def mkPrPayload (g : GqlPrData) (pr : PrRef) : Payload :=
  Payload.pr { title := g.title, body := g.body, owner := g.authorLogin,
               repo := pr.baseRepoName, prNumber := pr.number, prUrl := pr.html_url }

/-- The PR-body item of `fetchPrData` (src/app.ts:190-207). -/
def prBodyItem (nid : String) (pr : PrRef) (g : GqlPrData) : ConvItem :=
  { id := g.id, text := some g.body, issue_id := nid,
    userLogin := g.authorLogin, payload := mkPrPayload g pr }

/-- A PR top-level-comment or review-thread-comment item of `fetchPrData`. -/
def prCommentItem (nid : String) (pr : PrRef) (g : GqlPrData) (c : GqlComment) : ConvItem :=
  { id := c.id, text := some c.body, issue_id := nid,
    userLogin := c.authorLogin, payload := mkPrPayload g pr }

/-- `Issue.fetchPrData` (src/app.ts:188-250): the PR body item, then the
top-level comments, then each review thread's comments.  All pushes here
run synchronously, so the order is deterministic. -/
def fetchPrData (nid : String) (pr : PrRef) (g : GqlPrData) : List ConvItem :=
  prBodyItem nid pr g ::
    (g.comments.map (prCommentItem nid pr g) ++
     g.reviewThreads.flatMap (fun t => t.comments.map (prCommentItem nid pr g)))

/-- The issue-body item of `fetchAllRelatedData` (src/app.ts:254-262). -/
def issueItem (seed : SeedIssue) (payload : Payload) : ConvItem :=
  { id := seed.node_id, text := seed.body, issue_id := seed.node_id,
    userLogin := seed.userLogin, payload := payload }

/-- An issue-comment item of `fetchAllRelatedData` (src/app.ts:265-275). -/
def commentItem (nid : String) (c : RestComment) (payload : Payload) : ConvItem :=
  { id := c.node_id, text := c.body, issue_id := nid,
    userLogin := c.userLogin, payload := payload }

/-- The issue-comment items whose payload fetch resolved in slot `j`. -/
def commentsInSlot (j : Nat) (tagged : List (Nat × ConvItem)) : List ConvItem :=
  (tagged.filter (fun p => p.fst == j)).map Prod.snd

/-- Interleave the PR blocks (starting at slot 1) with the issue-comment
items scheduled between them. -/
def blocksWithSlots (tagged : List (Nat × ConvItem)) : List (List ConvItem) → Nat → List ConvItem
  | [], _ => []
  | b :: rest, j => b ++ commentsInSlot j tagged ++ blocksWithSlots tagged rest (j + 1)

/-- Build the issue-comment items of a schedule, keeping the slots.  The
input list is in promise-resolution order. -/
def tagItems (nid : String)
    (taggedComments : List (Nat × (RestComment × Payload))) : List (Nat × ConvItem) :=
  taggedComments.map (fun p => (p.fst, commentItem nid p.snd.fst p.snd.snd))

/-- `Issue.fetchAllRelatedData` (src/app.ts:252-283) under an explicit
resolution schedule for the fire-and-forget issue-comment pushes:
`taggedComments` lists the issue comments in the order their
`fetchPayloadComment` promises resolved (the push order, not necessarily
the REST list order), each tagged with the slot at which that happened.
Comments in slot 0 land before the first PR block, comments in slot j
land right after the j-th PR block, comments sharing a slot land in
resolution order, and comments whose slot exceeds the number of PR blocks
land after the list was consumed and are absent. -/
def fetchAllRelatedData_sched (seed : SeedIssue) (issuePayload : Payload)
    (taggedComments : List (Nat × (RestComment × Payload)))
    (prBlocks : List (List ConvItem)) : List ConvItem :=
  issueItem seed issuePayload ::
    (commentsInSlot 0 (tagItems seed.node_id taggedComments) ++
     blocksWithSlots (tagItems seed.node_id taggedComments) prBlocks 1)

/-- The sequential reading of `fetchAllRelatedData` asserted by the spec:
issue body, then each issue comment in order, then each associated PR's
block. -/
def fetchAllRelatedData_seq (seed : SeedIssue) (issuePayload : Payload)
    (comments : List (RestComment × Payload))
    (prList : List PrRef) (gql : String → GqlPrData) : List ConvItem :=
  issueItem seed issuePayload ::
    (comments.map (fun p => commentItem seed.node_id p.fst p.snd) ++
     (fetchAssociatedPRs seed prList).flatMap
       (fun pr => fetchPrData seed.node_id pr (gql pr.node_id)))

/-- The run invariant of the two tables and their dedup sets: routing
consistency, set/table synchronisation, and uniqueness of identifiers. -/
def goodState (st : AggState) : Prop :=
  (∀ e ∈ st.commentDataList, routeToComments e.id = true) ∧
  (∀ e ∈ st.issueDataList, routeToComments e.id = false) ∧
  (∀ x, x ∈ st.commentIds ↔ x ∈ idsOf st.commentDataList) ∧
  (∀ x, x ∈ st.issueIds ↔ x ∈ idsOf st.issueDataList) ∧
  (idsOf st.commentDataList).Nodup ∧ (idsOf st.issueDataList).Nodup

/-! ### Concrete data for witnesses and counterexamples -/

/-- Concrete text with one double quote flanked by letters, for witnesses
and counterexamples. -/
def qString : String := String.mk [Char.ofNat 97, quoteChar, Char.ofNat 98]

/-- Environment whose author lookup always fails, for the C8 witness. -/
def envErr : Env :=
  { markedFn := id, embedResp := fun _ => none,
    authorResp := fun _ => Except.error "boom", now := "T" }

/-- A plain issue-body Conversation Item used in several witnesses. -/
def itemPlain : ConvItem :=
  { id := "I_9", text := some "t", issue_id := "I_9", userLogin := "bob",
    payload := Payload.issuePayload "p" }

/-- Environment used by the aggregator witnesses. -/
def envWit : Env :=
  { markedFn := id, embedResp := fun _ => none,
    authorResp := fun _ => Except.ok 7, now := "T" }

/-- A seed issue with a non-empty body used by the aggregator witnesses. -/
def seedWit : SeedIssue :=
  { number := 42, node_id := "I_1", body := some "Fix the bug",
    userLogin := "alice", repository_url := "https://api.github.com/repos/o/r",
    html_url := "https://github.com/o/r/issues/42" }

/-- A Fetcher stub returning a single issue-body item for `seedWit`. -/
def fetchWit : SeedIssue → List ConvItem := fun seed =>
  [{ id := seed.node_id, text := seed.body, issue_id := seed.node_id,
     userLogin := seed.userLogin, payload := Payload.issuePayload "p" }]

/-- The single item `fetchWit` returns for `seedWit`. -/
def itemWit : ConvItem :=
  { id := "I_1", text := some "Fix the bug", issue_id := "I_1",
    userLogin := "alice", payload := Payload.issuePayload "p" }

/-- A state already holding the identifier of `itemPlain`, for the C2
witness. -/
def stDup : AggState :=
  { issueDataList := [enrich envWit "I_9" itemPlain],
    commentDataList := [], issueIds := ["I_9"], commentIds := [] }

/-- A seed with a null body for the C7 witness. -/
def seedEmpty : SeedIssue :=
  { number := 7, node_id := "I_7", body := none, userLogin := "carol",
    repository_url := "https://api.github.com/repos/o/r",
    html_url := "https://github.com/o/r/issues/7" }

/-- An environment whose embedding response encodes the length of the text
it was asked to embed; it distinguishes the markup-cleaned text from the
further quote-escaped plaintext. -/
def envLen : Env :=
  { markedFn := id,
    embedResp := fun s => some [some [(s.length : Int)]],
    authorResp := fun _ => Except.ok 1, now := "T" }

/-- A Conversation Item whose text is a single double quote. -/
def itemQuote : ConvItem :=
  { id := "I_2", text := some (String.mk [quoteChar]), issue_id := "I_2",
    userLogin := "dana", payload := Payload.issuePayload "p" }

/-- Counterexample data: one seed, one REST issue comment, one associated
PR with no comments. -/
def seedC3 : SeedIssue :=
  { number := 1, node_id := "I_1", body := some "b", userLogin := "alice",
    repository_url := "https://api.github.com/repos/o/r",
    html_url := "https://github.com/o/r/issues/1" }

def rcC3 : RestComment := { node_id := "IC_1", body := some "c", userLogin := "bob" }

def prRefC3 : PrRef :=
  { number := 2, html_url := "u", node_id := "PR_1", baseRepoName := "r",
    body := some "#1" }

def gqlC3 : String → GqlPrData := fun _ =>
  { id := "PR_1", title := "t", body := "pb", authorLogin := "carol",
    comments := [], reviewThreads := [] }

/-! ### Helper lemmas about the aggregator step -/

theorem addEntry_comment_dup (st : AggState) (e : Entry)
    (hr : routeToComments e.id = true) (hm : e.id ∈ st.commentIds) :
    addEntry st e = st := by
  simp [addEntry, hr, hm]

theorem addEntry_comment_new (st : AggState) (e : Entry)
    (hr : routeToComments e.id = true) (hm : e.id ∉ st.commentIds) :
    addEntry st e =
      { st with
          commentDataList := st.commentDataList ++ [e]
          commentIds := e.id :: st.commentIds } := by
  simp [addEntry, hr, hm]

theorem addEntry_issue_dup (st : AggState) (e : Entry)
    (hr : routeToComments e.id = false) (hm : e.id ∈ st.issueIds) :
    addEntry st e = st := by
  simp [addEntry, hr, hm]

theorem addEntry_issue_new (st : AggState) (e : Entry)
    (hr : routeToComments e.id = false) (hm : e.id ∉ st.issueIds) :
    addEntry st e =
      { st with
          issueDataList := st.issueDataList ++ [e]
          issueIds := e.id :: st.issueIds } := by
  simp [addEntry, hr, hm]

theorem goodState_initState : goodState initState := by
  refine ⟨?_, ?_, ?_, ?_, ?_, ?_⟩ <;> simp [initState, idsOf]

theorem goodState_addEntry (st : AggState) (e : Entry) (h : goodState st) :
    goodState (addEntry st e) := by
  obtain ⟨hc, hi, hsc, hsi, hnc, hni⟩ := h
  cases hr : routeToComments e.id with
  | true =>
    by_cases hm : e.id ∈ st.commentIds
    · rw [addEntry_comment_dup st e hr hm]; exact ⟨hc, hi, hsc, hsi, hnc, hni⟩
    · rw [addEntry_comment_new st e hr hm]
      have hnotin : e.id ∉ idsOf st.commentDataList := fun hx => hm ((hsc e.id).mpr hx)
      refine ⟨?_, hi, ?_, hsi, ?_, hni⟩
      · intro e' he'
        rcases List.mem_append.mp he' with h1 | h2
        · exact hc e' h1
        · rw [List.mem_singleton.mp h2]; exact hr
      · intro x
        simp only [idsOf, List.map_append, List.map_cons, List.map_nil,
          List.mem_append, List.mem_cons, List.mem_singleton, List.not_mem_nil, or_false]
        constructor
        · rintro (rfl | hx)
          · exact Or.inr rfl
          · exact Or.inl ((hsc x).mp hx)
        · rintro (hx | rfl)
          · exact Or.inr ((hsc x).mpr hx)
          · exact Or.inl rfl
      · simp only [idsOf, List.map_append, List.map_cons, List.map_nil]
        rw [List.nodup_append]
        refine ⟨hnc, List.nodup_singleton _, ?_⟩
        intro a ha hb
        rw [List.mem_singleton.mp hb] at ha
        exact hnotin ha
  | false =>
    by_cases hm : e.id ∈ st.issueIds
    · rw [addEntry_issue_dup st e hr hm]; exact ⟨hc, hi, hsc, hsi, hnc, hni⟩
    · rw [addEntry_issue_new st e hr hm]
      have hnotin : e.id ∉ idsOf st.issueDataList := fun hx => hm ((hsi e.id).mpr hx)
      refine ⟨hc, ?_, hsc, ?_, hnc, ?_⟩
      · intro e' he'
        rcases List.mem_append.mp he' with h1 | h2
        · exact hi e' h1
        · rw [List.mem_singleton.mp h2]; exact hr
      · intro x
        simp only [idsOf, List.map_append, List.map_cons, List.map_nil,
          List.mem_append, List.mem_cons, List.mem_singleton, List.not_mem_nil, or_false]
        constructor
        · rintro (rfl | hx)
          · exact Or.inr rfl
          · exact Or.inl ((hsi x).mp hx)
        · rintro (hx | rfl)
          · exact Or.inr ((hsi x).mpr hx)
          · exact Or.inl rfl
      · simp only [idsOf, List.map_append, List.map_cons, List.map_nil]
        rw [List.nodup_append]
        refine ⟨hni, List.nodup_singleton _, ?_⟩
        intro a ha hb
        rw [List.mem_singleton.mp hb] at ha
        exact hnotin ha

theorem commentIds_mono_addEntry (st : AggState) (e : Entry) (x : String)
    (hx : x ∈ st.commentIds) : x ∈ (addEntry st e).commentIds := by
  unfold addEntry
  split
  · split
    · exact hx
    · exact List.mem_cons_of_mem _ hx
  · split
    · exact hx
    · exact hx

theorem issueIds_mono_addEntry (st : AggState) (e : Entry) (x : String)
    (hx : x ∈ st.issueIds) : x ∈ (addEntry st e).issueIds := by
  unfold addEntry
  split
  · split
    · exact hx
    · exact hx
  · split
    · exact hx
    · exact List.mem_cons_of_mem _ hx

theorem mem_commentIds_addEntry (st : AggState) (e : Entry)
    (hr : routeToComments e.id = true) : e.id ∈ (addEntry st e).commentIds := by
  by_cases hm : e.id ∈ st.commentIds
  · rw [addEntry_comment_dup st e hr hm]; exact hm
  · rw [addEntry_comment_new st e hr hm]; simp

theorem mem_issueIds_addEntry (st : AggState) (e : Entry)
    (hr : routeToComments e.id = false) : e.id ∈ (addEntry st e).issueIds := by
  by_cases hm : e.id ∈ st.issueIds
  · rw [addEntry_issue_dup st e hr hm]; exact hm
  · rw [addEntry_issue_new st e hr hm]; simp

theorem addEntry_append (st : AggState) (e : Entry) :
    ∃ l₁ l₂, (addEntry st e).issueDataList = st.issueDataList ++ l₁ ∧
             (addEntry st e).commentDataList = st.commentDataList ++ l₂ := by
  unfold addEntry
  split
  · split
    · exact ⟨[], [], by simp, by simp⟩
    · exact ⟨[], [e], by simp, by simp⟩
  · split
    · exact ⟨[], [], by simp, by simp⟩
    · exact ⟨[e], [], by simp, by simp⟩

theorem processItems_cons (env : Env) (nid : String) (st : AggState)
    (item : ConvItem) (items : List ConvItem) :
    processItems env nid st (item :: items) =
      processItems env nid (addEntry st (enrich env nid item)) items := rfl

theorem goodState_processItems (env : Env) (nid : String) (items : List ConvItem)
    (st : AggState) (h : goodState st) : goodState (processItems env nid st items) := by
  induction items generalizing st with
  | nil => exact h
  | cons item rest ih =>
    rw [processItems_cons]
    exact ih _ (goodState_addEntry _ _ h)

theorem commentIds_mono_processItems (env : Env) (nid : String) (items : List ConvItem)
    (st : AggState) (x : String) (hx : x ∈ st.commentIds) :
    x ∈ (processItems env nid st items).commentIds := by
  induction items generalizing st with
  | nil => exact hx
  | cons item rest ih =>
    rw [processItems_cons]
    exact ih _ (commentIds_mono_addEntry _ _ _ hx)

theorem issueIds_mono_processItems (env : Env) (nid : String) (items : List ConvItem)
    (st : AggState) (x : String) (hx : x ∈ st.issueIds) :
    x ∈ (processItems env nid st items).issueIds := by
  induction items generalizing st with
  | nil => exact hx
  | cons item rest ih =>
    rw [processItems_cons]
    exact ih _ (issueIds_mono_addEntry _ _ _ hx)

theorem mem_commentIds_processItems (env : Env) (nid : String) (items : List ConvItem)
    (st : AggState) (item : ConvItem) (hmem : item ∈ items)
    (hr : routeToComments item.id = true) :
    item.id ∈ (processItems env nid st items).commentIds := by
  induction items generalizing st with
  | nil => cases hmem
  | cons hd rest ih =>
    rw [processItems_cons]
    rcases List.mem_cons.mp hmem with rfl | hmem'
    · exact commentIds_mono_processItems env nid rest _ _
        (mem_commentIds_addEntry st (enrich env nid item) hr)
    · exact ih _ hmem'

theorem mem_issueIds_processItems (env : Env) (nid : String) (items : List ConvItem)
    (st : AggState) (item : ConvItem) (hmem : item ∈ items)
    (hr : routeToComments item.id = false) :
    item.id ∈ (processItems env nid st items).issueIds := by
  induction items generalizing st with
  | nil => cases hmem
  | cons hd rest ih =>
    rw [processItems_cons]
    rcases List.mem_cons.mp hmem with rfl | hmem'
    · exact issueIds_mono_processItems env nid rest _ _
        (mem_issueIds_addEntry st (enrich env nid item) hr)
    · exact ih _ hmem'

/-- The tables only grow, and the rows appended by one seed's inner loop
are the enriched items in fetch order (a sublist: duplicates are the only
omissions). -/
theorem processItems_append (env : Env) (nid : String) (items : List ConvItem)
    (st : AggState) :
    ∃ l₁ l₂, (processItems env nid st items).issueDataList = st.issueDataList ++ l₁ ∧
             (processItems env nid st items).commentDataList = st.commentDataList ++ l₂ ∧
             l₁.Sublist (items.map (enrich env nid)) ∧
             l₂.Sublist (items.map (enrich env nid)) := by
  induction items generalizing st with
  | nil =>
    exact ⟨[], [], by simp [processItems], by simp [processItems],
      List.nil_sublist _, List.nil_sublist _⟩
  | cons item rest ih =>
    rw [processItems_cons]
    obtain ⟨l₁, l₂, h1, h2, hs1, hs2⟩ := ih (addEntry st (enrich env nid item))
    have hmap : (item :: rest).map (enrich env nid) =
        enrich env nid item :: rest.map (enrich env nid) := List.map_cons _ _ _
    by_cases hr : routeToComments (enrich env nid item).id = true
    · by_cases hm : (enrich env nid item).id ∈ st.commentIds
      · rw [addEntry_comment_dup st _ hr hm] at h1 h2 ⊢
        refine ⟨l₁, l₂, h1, h2, ?_, ?_⟩
        · rw [hmap]; exact hs1.trans (List.sublist_cons_self _ _)
        · rw [hmap]; exact hs2.trans (List.sublist_cons_self _ _)
      · rw [addEntry_comment_new st _ hr hm] at h1 h2 ⊢
        refine ⟨l₁, enrich env nid item :: l₂, h1, ?_, ?_, ?_⟩
        · rw [h2]; simp
        · rw [hmap]; exact hs1.trans (List.sublist_cons_self _ _)
        · rw [hmap]; exact List.Sublist.cons₂ _ hs2
    · rw [Bool.not_eq_true] at hr
      by_cases hm : (enrich env nid item).id ∈ st.issueIds
      · rw [addEntry_issue_dup st _ hr hm] at h1 h2 ⊢
        refine ⟨l₁, l₂, h1, h2, ?_, ?_⟩
        · rw [hmap]; exact hs1.trans (List.sublist_cons_self _ _)
        · rw [hmap]; exact hs2.trans (List.sublist_cons_self _ _)
      · rw [addEntry_issue_new st _ hr hm] at h1 h2 ⊢
        refine ⟨enrich env nid item :: l₁, l₂, ?_, h2, ?_, ?_⟩
        · rw [h1]; simp
        · rw [hmap]; exact List.Sublist.cons₂ _ hs1
        · rw [hmap]; exact hs2.trans (List.sublist_cons_self _ _)

theorem goodState_processSeed (env : Env) (f : SeedIssue → List ConvItem)
    (seed : SeedIssue) (st : AggState) (h : goodState st) :
    goodState (processSeed env f st seed) := by
  unfold processSeed
  split
  · exact h
  · exact goodState_processItems _ _ _ _ h

theorem commentIds_mono_processSeed (env : Env) (f : SeedIssue → List ConvItem)
    (seed : SeedIssue) (st : AggState) (x : String) (hx : x ∈ st.commentIds) :
    x ∈ (processSeed env f st seed).commentIds := by
  unfold processSeed
  split
  · exact hx
  · exact commentIds_mono_processItems _ _ _ _ _ hx

theorem issueIds_mono_processSeed (env : Env) (f : SeedIssue → List ConvItem)
    (seed : SeedIssue) (st : AggState) (x : String) (hx : x ∈ st.issueIds) :
    x ∈ (processSeed env f st seed).issueIds := by
  unfold processSeed
  split
  · exact hx
  · exact issueIds_mono_processItems _ _ _ _ _ hx

theorem goodState_foldSeeds (env : Env) (f : SeedIssue → List ConvItem)
    (seeds : List SeedIssue) (st : AggState) (h : goodState st) :
    goodState (seeds.foldl (processSeed env f) st) := by
  induction seeds generalizing st with
  | nil => exact h
  | cons seed rest ih => exact ih _ (goodState_processSeed env f seed st h)

theorem commentIds_mono_foldSeeds (env : Env) (f : SeedIssue → List ConvItem)
    (seeds : List SeedIssue) (st : AggState) (x : String) (hx : x ∈ st.commentIds) :
    x ∈ (seeds.foldl (processSeed env f) st).commentIds := by
  induction seeds generalizing st with
  | nil => exact hx
  | cons seed rest ih => exact ih _ (commentIds_mono_processSeed env f seed st x hx)

theorem issueIds_mono_foldSeeds (env : Env) (f : SeedIssue → List ConvItem)
    (seeds : List SeedIssue) (st : AggState) (x : String) (hx : x ∈ st.issueIds) :
    x ∈ (seeds.foldl (processSeed env f) st).issueIds := by
  induction seeds generalizing st with
  | nil => exact hx
  | cons seed rest ih => exact ih _ (issueIds_mono_processSeed env f seed st x hx)

/-- An item fetched for a non-skipped seed ends up (by identifier) in the
comment dedup set whenever it routes to comments. -/
theorem mem_commentIds_foldSeeds (env : Env) (f : SeedIssue → List ConvItem)
    (seeds : List SeedIssue) (st : AggState) (seed : SeedIssue)
    (hseed : seed ∈ seeds) (hbody : isFalsyStr seed.body = false)
    (item : ConvItem) (hitem : item ∈ f seed) (hr : routeToComments item.id = true) :
    item.id ∈ (seeds.foldl (processSeed env f) st).commentIds := by
  induction seeds generalizing st with
  | nil => cases hseed
  | cons hd rest ih =>
    rw [List.foldl_cons]
    rcases List.mem_cons.mp hseed with rfl | hmem'
    · apply commentIds_mono_foldSeeds
      unfold processSeed
      rw [hbody]
      simp only [Bool.false_eq_true, if_false]
      exact mem_commentIds_processItems env seed.node_id (f seed) st item hitem hr
    · exact ih _ hmem'

theorem mem_issueIds_foldSeeds (env : Env) (f : SeedIssue → List ConvItem)
    (seeds : List SeedIssue) (st : AggState) (seed : SeedIssue)
    (hseed : seed ∈ seeds) (hbody : isFalsyStr seed.body = false)
    (item : ConvItem) (hitem : item ∈ f seed) (hr : routeToComments item.id = false) :
    item.id ∈ (seeds.foldl (processSeed env f) st).issueIds := by
  induction seeds generalizing st with
  | nil => cases hseed
  | cons hd rest ih =>
    rw [List.foldl_cons]
    rcases List.mem_cons.mp hseed with rfl | hmem'
    · apply issueIds_mono_foldSeeds
      unfold processSeed
      rw [hbody]
      simp only [Bool.false_eq_true, if_false]
      exact mem_issueIds_processItems env seed.node_id (f seed) st item hitem hr
    · exact ih _ hmem'

theorem goodState_processIssues (env : Env) (f : SeedIssue → List ConvItem)
    (seeds : List SeedIssue) : goodState (processIssues env f seeds) :=
  goodState_foldSeeds env f seeds initState goodState_initState

theorem route_true_of_mem_comments (st : AggState) (h : goodState st) (x : String)
    (hx : x ∈ idsOf st.commentDataList) : routeToComments x = true := by
  obtain ⟨e, he, heq⟩ := List.mem_map.mp hx
  rw [← heq]
  exact h.1 e he

theorem route_false_of_mem_issues (st : AggState) (h : goodState st) (x : String)
    (hx : x ∈ idsOf st.issueDataList) : routeToComments x = false := by
  obtain ⟨e, he, heq⟩ := List.mem_map.mp hx
  rw [← heq]
  exact h.2.1 e he

/-! ### Helper lemmas about the text normalizer -/

theorem mem_escQuotes (l : List Char) (c : Char) (hc : c ∈ escQuotes l) :
    c ∈ l ∨ c = quoteChar := by
  induction l with
  | nil => cases hc
  | cons a rest ih =>
    unfold escQuotes at hc
    by_cases ha : a = quoteChar
    · rw [if_pos ha] at hc
      rcases List.mem_cons.mp hc with rfl | hc2
      · exact Or.inr rfl
      · rcases List.mem_cons.mp hc2 with rfl | hc3
        · exact Or.inr rfl
        · rcases ih hc3 with h | h
          · exact Or.inl (List.mem_cons_of_mem _ h)
          · exact Or.inr h
    · rw [if_neg ha] at hc
      rcases List.mem_cons.mp hc with rfl | hc2
      · exact Or.inl (List.mem_cons_self _ _)
      · rcases ih hc2 with h | h
        · exact Or.inl (List.mem_cons_of_mem _ h)
        · exact Or.inr h

theorem countQ_escQuotes (l : List Char) : countQ (escQuotes l) = 2 * countQ l := by
  induction l with
  | nil => rfl
  | cons a rest ih =>
    by_cases ha : a = quoteChar
    · simp [escQuotes, countQ, ha, ih]
      omega
    · simp [escQuotes, countQ, ha, ih]

theorem countQ_filter_keepChar (l : List Char) :
    countQ (l.filter keepChar) = countQ l := by
  induction l with
  | nil => rfl
  | cons a rest ih =>
    rw [List.filter_cons]
    by_cases ha : a = quoteChar
    · subst ha
      have hk : keepChar quoteChar = true := by decide
      simp [hk, countQ, ih]
    · by_cases hk : keepChar a
      · simp [hk, countQ, ha, ih]
      · simp [hk, countQ, ha, ih]

theorem quotesDoubled_cons_ne (c : Char) (l : List Char) (hc : c ≠ quoteChar) :
    quotesDoubled (c :: l) = quotesDoubled l := by
  cases l with
  | nil => simp [quotesDoubled, hc]
  | cons c2 rest => simp [quotesDoubled, hc]

theorem quotesDoubled_cons_qq (l : List Char) :
    quotesDoubled (quoteChar :: quoteChar :: l) = quotesDoubled l := by
  simp [quotesDoubled]

theorem quotesDoubled_escQuotes (l : List Char) :
    quotesDoubled (escQuotes l) = true := by
  induction l with
  | nil => rfl
  | cons a rest ih =>
    unfold escQuotes
    by_cases ha : a = quoteChar
    · rw [if_pos ha, quotesDoubled_cons_qq]
      exact ih
    · rw [if_neg ha, quotesDoubled_cons_ne a _ ha]
      exact ih

theorem escQuotes_of_no_quotes (l : List Char) (h : countQ l = 0) :
    escQuotes l = l := by
  induction l with
  | nil => rfl
  | cons a rest ih =>
    unfold countQ at h
    by_cases ha : a = quoteChar
    · rw [if_pos ha] at h
      omega
    · rw [if_neg ha, Nat.zero_add] at h
      unfold escQuotes
      rw [if_neg ha, ih h]

/-! ### The claims -/

/-- C4: `cleanText` returns the empty string for every falsy input (null,
undefined, the empty string); for every other string it removes all
characters outside printable-ASCII-plus-whitespace and doubles every
literal double quote: the output contains only characters that pass the
printable-or-whitespace filter, it holds exactly twice as many double
quotes as the input, and those quotes occur only in adjacent (doubled)
pairs.  Determinism and absence of side effects are inherent in the
embedding: `cleanText` is a pure function. -/
theorem cleanText_contract :
    cleanText none = "" ∧ cleanText (some "") = "" ∧
    (∀ s : String, ∀ c, c ∈ (cleanText (some s)).data → keepChar c = true) ∧
    (∀ s : String, countQ (cleanText (some s)).data = 2 * countQ s.data) ∧
    (∀ s : String, quotesDoubled (cleanText (some s)).data = true) := by
  refine ⟨rfl, rfl, ?_, ?_, ?_⟩
  · intro s c hc
    simp only [cleanText] at hc
    by_cases hs : s = ""
    · rw [if_pos hs] at hc
      cases hc
    · rw [if_neg hs] at hc
      rcases mem_escQuotes (s.data.filter keepChar) c hc with h | h
      · exact List.of_mem_filter h
      · rw [h]; decide
  · intro s
    simp only [cleanText]
    by_cases hs : s = ""
    · rw [if_pos hs]
      subst hs
      rfl
    · rw [if_neg hs]
      show countQ (escQuotes (s.data.filter keepChar)) = 2 * countQ s.data
      rw [countQ_escQuotes, countQ_filter_keepChar]
  · intro s
    simp only [cleanText]
    by_cases hs : s = ""
    · rw [if_pos hs]
      rfl
    · rw [if_neg hs]
      exact quotesDoubled_escQuotes _

/-- Witness for C4 at the concrete input a-quote-b. -/
theorem cleanText_contract_witness :
    keepChar (Char.ofNat 97) = true ∧
    countQ (cleanText (some qString)).data = 2 * countQ qString.data :=
  ⟨cleanText_contract.2.2.1 qString (Char.ofNat 97) (by decide),
   cleanText_contract.2.2.2.1 qString⟩

/-- C9: `removeSpecificWords` is idempotent, because its result is always
either the empty string or the input unchanged, and the empty string is a
fixed point (both branches of the guard return it). -/
theorem removeSpecificWords_idem :
    (∀ t : String, removeSpecificWords (removeSpecificWords t) = removeSpecificWords t) ∧
    (∀ t : String, removeSpecificWords t = "" ∨ removeSpecificWords t = t) := by
  have h0 : removeSpecificWords "" = "" := by
    unfold removeSpecificWords
    split <;> rfl
  constructor
  · intro t
    by_cases h : specificWords.any (fun word => includes t word) = true
    · have h1 : removeSpecificWords t = "" := by
        unfold removeSpecificWords
        rw [if_pos h]
      rw [h1, h0]
    · have h1 : removeSpecificWords t = t := by
        unfold removeSpecificWords
        rw [if_neg h]
      rw [h1, h1]
  · intro t
    unfold removeSpecificWords
    split
    · exact Or.inl rfl
    · exact Or.inr rfl

/-- C8: author-id resolution returns the numeric id on success; on any
fetch error it logs the error and returns the sentinel -1, and the
enrichment of an item (hence the run) proceeds with that sentinel as the
author id. -/
theorem fetchAuthorId_contract :
    (∀ n : Int, fetchAuthorId (Except.ok n) = (n, [])) ∧
    (∀ e : String, (fetchAuthorId (Except.error e)).fst = -1 ∧
       (fetchAuthorId (Except.error e)).snd ≠ []) ∧
    (∀ (env : Env) (nid : String) (item : ConvItem) (e : String),
      env.authorResp item.userLogin = Except.error e →
      (enrich env nid item).author_id = -1) ∧
    (∀ (env : Env) (nid : String) (item : ConvItem) (n : Int),
      env.authorResp item.userLogin = Except.ok n →
      (enrich env nid item).author_id = n) := by
  refine ⟨fun n => rfl, fun e => ⟨rfl, by simp [fetchAuthorId]⟩, ?_, ?_⟩
  · intro env nid item e h
    show (fetchAuthorId (env.authorResp item.userLogin)).fst = -1
    rw [h]
    rfl
  · intro env nid item n h
    show (fetchAuthorId (env.authorResp item.userLogin)).fst = n
    rw [h]
    rfl

/-- Witness for C8: a failing lookup yields author id -1 in the entry. -/
theorem fetchAuthorId_contract_witness :
    (enrich envErr "I_9" itemPlain).author_id = -1 :=
  fetchAuthorId_contract.2.2.1 envErr "I_9" itemPlain "boom" rfl

/-- C1: every Enriched Entry produced in a run appears, by identifier, in
exactly one of the two output tables: entries in the comments table always
route there (their id contains "PR" or "IC"), entries in the issues table
never do, and every item the Fetcher returned for a non-skipped seed ends
up in the table its routing predicate selects and is absent from the
other. -/
theorem routing_exclusive (env : Env) (fetchFn : SeedIssue → List ConvItem)
    (seeds : List SeedIssue) :
    (∀ e ∈ (processIssues env fetchFn seeds).commentDataList, routeToComments e.id = true) ∧
    (∀ e ∈ (processIssues env fetchFn seeds).issueDataList, routeToComments e.id = false) ∧
    (∀ seed ∈ seeds, isFalsyStr seed.body = false → ∀ item ∈ fetchFn seed,
      (routeToComments item.id = true →
        item.id ∈ idsOf (processIssues env fetchFn seeds).commentDataList ∧
        item.id ∉ idsOf (processIssues env fetchFn seeds).issueDataList) ∧
      (routeToComments item.id = false →
        item.id ∈ idsOf (processIssues env fetchFn seeds).issueDataList ∧
        item.id ∉ idsOf (processIssues env fetchFn seeds).commentDataList)) := by
  have hg : goodState (processIssues env fetchFn seeds) :=
    goodState_processIssues env fetchFn seeds
  refine ⟨hg.1, hg.2.1, ?_⟩
  intro seed hseed hbody item hitem
  constructor
  · intro hr
    constructor
    · exact (hg.2.2.1 item.id).mp
        (mem_commentIds_foldSeeds env fetchFn seeds initState seed hseed hbody item hitem hr)
    · intro hmem
      rw [route_false_of_mem_issues _ hg item.id hmem] at hr
      cases hr
  · intro hr
    constructor
    · exact (hg.2.2.2.1 item.id).mp
        (mem_issueIds_foldSeeds env fetchFn seeds initState seed hseed hbody item hitem hr)
    · intro hmem
      rw [route_true_of_mem_comments _ hg item.id hmem] at hr
      cases hr

/-- Witness for C1: the single fetched item of the one-seed run lands in
the issues table and not in the comments table. -/
theorem routing_exclusive_witness :
    "I_1" ∈ idsOf (processIssues envWit fetchWit [seedWit]).issueDataList ∧
    "I_1" ∉ idsOf (processIssues envWit fetchWit [seedWit]).commentDataList :=
  ((routing_exclusive envWit fetchWit [seedWit]).2.2 seedWit (by decide) (by decide)
    itemWit (by decide)).2 (by decide)

/-- C2: within a single run no identifier appears twice in either output
table; an entry whose identifier is already in the target dedup set is
skipped (the state is unchanged, so nothing is added and nothing is
overwritten), and every step only appends to the tables, so the first
occurrence wins. -/
theorem dedup_first_wins (env : Env) (fetchFn : SeedIssue → List ConvItem)
    (seeds : List SeedIssue) :
    (idsOf (processIssues env fetchFn seeds).issueDataList).Nodup ∧
    (idsOf (processIssues env fetchFn seeds).commentDataList).Nodup ∧
    (∀ (st : AggState) (e : Entry), routeToComments e.id = true →
      e.id ∈ st.commentIds → addEntry st e = st) ∧
    (∀ (st : AggState) (e : Entry), routeToComments e.id = false →
      e.id ∈ st.issueIds → addEntry st e = st) ∧
    (∀ (st : AggState) (e : Entry), ∃ l₁ l₂,
      (addEntry st e).issueDataList = st.issueDataList ++ l₁ ∧
      (addEntry st e).commentDataList = st.commentDataList ++ l₂) := by
  have hg : goodState (processIssues env fetchFn seeds) :=
    goodState_processIssues env fetchFn seeds
  exact ⟨hg.2.2.2.2.2, hg.2.2.2.2.1, addEntry_comment_dup, addEntry_issue_dup,
    addEntry_append⟩

/-- Witness for C2: adding a duplicate identifier leaves the state
untouched. -/
theorem dedup_first_wins_witness :
    addEntry stDup (enrich envWit "I_9" itemPlain) = stDup :=
  (dedup_first_wins envWit fetchWit []).2.2.2.1 stDup
    (enrich envWit "I_9" itemPlain) (by decide) (by decide)

/-- C7: a seed issue with an empty or null body produces zero Enriched
Entries: its processing step leaves the state unchanged, performs no
fetching (the result does not depend on the Fetcher), and the whole run
over a seed list containing it equals the run with it removed, so the
pipeline continues with the remaining seeds. -/
theorem empty_body_skipped (env : Env) (f g : SeedIssue → List ConvItem)
    (st : AggState) (seed : SeedIssue) (pre post : List SeedIssue)
    (h : isFalsyStr seed.body = true) :
    processSeed env f st seed = st ∧
    processSeed env f st seed = processSeed env g st seed ∧
    processIssues env f (pre ++ seed :: post) = processIssues env f (pre ++ post) := by
  have hskip : ∀ (f' : SeedIssue → List ConvItem) (st' : AggState),
      processSeed env f' st' seed = st' := by
    intro f' st'
    unfold processSeed
    rw [h]
    simp
  refine ⟨hskip f st, by rw [hskip f st, hskip g st], ?_⟩
  unfold processIssues
  rw [List.foldl_append, List.foldl_append, List.foldl_cons, hskip f]

/-- Witness for C7: the null-body seed contributes nothing to a run. -/
theorem empty_body_skipped_witness :
    processIssues envWit fetchWit ([seedWit] ++ seedEmpty :: []) =
      processIssues envWit fetchWit ([seedWit] ++ []) :=
  (empty_body_skipped envWit fetchWit fetchWit initState seedEmpty
    [seedWit] [] (by decide)).2.2

/-- C5: the embedding of every Enriched Entry is computed over the
markup-cleaned text (the output of `cleanMarkdown`), and the plaintext
column is `cleanText` applied to that same markup-cleaned text; moreover
the two inputs genuinely differ: there is an environment and item where
embedding the escaped plaintext instead would give a different vector. -/
theorem embedding_over_markup_cleaned (env : Env) (nid : String) (item : ConvItem) :
    (enrich env nid item).embedding =
      extractEmbeddings (env.embedResp (cleanMarkdown env.markedFn item.text)) ∧
    (enrich env nid item).plaintext =
      cleanText (some (cleanMarkdown env.markedFn item.text)) ∧
    (∃ (env2 : Env) (nid2 : String) (item2 : ConvItem),
      (enrich env2 nid2 item2).embedding ≠
        extractEmbeddings (env2.embedResp
          (cleanText (some (cleanMarkdown env2.markedFn item2.text))))) := by
  refine ⟨rfl, rfl, envLen, "I_2", itemQuote, ?_⟩
  decide

/-- Counterexample to C6 as stated: the markdown field is not the raw
fetched text unchanged.  For an item whose text is a single double quote,
the stored markdown is the quote doubled. -/
theorem markdown_unchanged_counterexample :
    (enrich envLen "I_2" itemQuote).markdown ≠ String.mk [quoteChar] := by
  decide

/-- C6 amended: the markdown field of every Enriched Entry is `cleanText`
applied to the item's raw text (non-printables removed, double quotes
doubled); it equals the raw text exactly when that text consists of
printable-ASCII-or-whitespace characters and contains no double quote. -/
theorem markdown_is_cleanText (env : Env) (nid : String) (item : ConvItem) :
    (enrich env nid item).markdown = cleanText item.text ∧
    (∀ s : String, item.text = some s →
      (∀ c ∈ s.data, keepChar c = true) → countQ s.data = 0 →
      (enrich env nid item).markdown = s) := by
  refine ⟨rfl, ?_⟩
  intro s hs hkeep hq
  have h1 : (enrich env nid item).markdown = cleanText (some s) := by rw [← hs]; rfl
  rw [h1]
  simp only [cleanText]
  by_cases hempty : s = ""
  · rw [if_pos hempty, hempty]
  · rw [if_neg hempty]
    rw [List.filter_eq_self.mpr hkeep, escQuotes_of_no_quotes s.data hq]

/-- Witness for C6's amended claim: for quote-free printable text the
markdown column is the original text. -/
theorem markdown_is_cleanText_witness :
    (enrich envWit "I_9" itemPlain).markdown = "t" :=
  (markdown_is_cleanText envWit "I_9" itemPlain).2 "t" rfl
    (by decide) (by decide)

/-- C10: an empty or malformed embedding response does not drop an item:
`extractEmbeddings` returns the empty vector on a missing data field, an
empty data list, or a first datum without an embedding; the Enriched Entry
is still produced and added to its routed table whenever its identifier is
unseen; and its embedding column renders as the two-character bracket
pair. -/
theorem empty_embedding_kept (env : Env) (st : AggState) (nid : String)
    (item : ConvItem)
    (hresp : extractEmbeddings
      (env.embedResp (cleanMarkdown env.markedFn item.text)) = []) :
    formatEmbedding (enrich env nid item).embedding = "[]" ∧
    (routeToComments item.id = true → item.id ∉ st.commentIds →
      enrich env nid item ∈ (addEntry st (enrich env nid item)).commentDataList) ∧
    (routeToComments item.id = false → item.id ∉ st.issueIds →
      enrich env nid item ∈ (addEntry st (enrich env nid item)).issueDataList) ∧
    extractEmbeddings none = [] ∧
    extractEmbeddings (some []) = [] ∧
    (∀ r, extractEmbeddings (some (none :: r)) = []) := by
  refine ⟨?_, ?_, ?_, rfl, rfl, fun r => rfl⟩
  · have h1 : (enrich env nid item).embedding = [] := hresp
    rw [h1]
    rfl
  · intro hr hm
    rw [addEntry_comment_new st _ hr hm]
    simp
  · intro hr hm
    rw [addEntry_issue_new st _ hr hm]
    simp

/-- Witness for C10: with the always-malformed embedding service of
`envErr`, the plain item is still stored, rendered with an empty
embedding literal. -/
theorem empty_embedding_kept_witness :
    formatEmbedding (enrich envErr "I_9" itemPlain).embedding = "[]" ∧
    enrich envErr "I_9" itemPlain ∈
      (addEntry initState (enrich envErr "I_9" itemPlain)).issueDataList :=
  ⟨(empty_embedding_kept envErr initState "I_9" itemPlain (by decide)).1,
   (empty_embedding_kept envErr initState "I_9" itemPlain (by decide)).2.2.1
     (by decide) (by decide)⟩

/-! ### Helper lemmas about the scheduled fetcher -/

theorem commentsInSlot_eq_of_all (j : Nat) (tagged : List (Nat × ConvItem))
    (h : ∀ p ∈ tagged, p.fst = j) :
    commentsInSlot j tagged = tagged.map Prod.snd := by
  unfold commentsInSlot
  congr 1
  apply List.filter_eq_self.mpr
  intro p hp
  simp [h p hp]

theorem commentsInSlot_eq_nil (j : Nat) (tagged : List (Nat × ConvItem))
    (h : ∀ p ∈ tagged, p.fst ≠ j) :
    commentsInSlot j tagged = [] := by
  unfold commentsInSlot
  rw [List.filter_eq_nil_iff.mpr (fun p hp => by simp [h p hp])]
  rfl

theorem blocksWithSlots_join (tagged : List (Nat × ConvItem))
    (blocks : List (List ConvItem)) (j : Nat) (h : ∀ p ∈ tagged, p.fst < j) :
    blocksWithSlots tagged blocks j = blocks.flatten := by
  induction blocks generalizing j with
  | nil => rfl
  | cons b rest ih =>
    unfold blocksWithSlots
    rw [commentsInSlot_eq_nil j tagged (fun p hp => Nat.ne_of_lt (h p hp)),
        ih (j + 1) (fun p hp => Nat.lt_succ_of_lt (h p hp))]
    simp

theorem mem_commentsInSlot (j : Nat) (tagged : List (Nat × ConvItem)) (it : ConvItem)
    (h : it ∈ commentsInSlot j tagged) : ∃ p ∈ tagged, p.snd = it := by
  unfold commentsInSlot at h
  obtain ⟨p, hp, rfl⟩ := List.mem_map.mp h
  exact ⟨p, List.mem_of_mem_filter hp, rfl⟩

theorem mem_blocksWithSlots (tagged : List (Nat × ConvItem))
    (blocks : List (List ConvItem)) (j : Nat) (it : ConvItem)
    (h : it ∈ blocksWithSlots tagged blocks j) :
    (∃ b ∈ blocks, it ∈ b) ∨ (∃ p ∈ tagged, p.snd = it) := by
  induction blocks generalizing j with
  | nil => cases h
  | cons b rest ih =>
    unfold blocksWithSlots at h
    rcases List.mem_append.mp h with h1 | hrec
    · rcases List.mem_append.mp h1 with hb | hc
      · exact Or.inl ⟨b, List.mem_cons_self _ _, hb⟩
      · exact Or.inr (mem_commentsInSlot _ _ _ hc)
    · rcases ih (j + 1) hrec with ⟨b', hb', hit⟩ | hp
      · exact Or.inl ⟨b', List.mem_cons_of_mem _ hb', hit⟩
      · exact Or.inr hp

theorem issue_id_of_mem_fetchPrData (nid : String) (pr : PrRef) (g : GqlPrData)
    (it : ConvItem) (h : it ∈ fetchPrData nid pr g) : it.issue_id = nid := by
  unfold fetchPrData at h
  rcases List.mem_cons.mp h with rfl | h2
  · rfl
  rcases List.mem_append.mp h2 with h3 | h4
  · obtain ⟨c, _, rfl⟩ := List.mem_map.mp h3
    rfl
  · obtain ⟨t, _, hmem⟩ := List.mem_flatMap.mp h4
    obtain ⟨c, _, rfl⟩ := List.mem_map.mp hmem
    rfl

/-! ### Claim C3 -/

/-- Counterexample to C3 as stated: the fire-and-forget issue-comment
pushes of `fetchAllRelatedData` are not awaited, so a comment whose
payload fetch resolves only after the first PR block has been appended
(slot 1) lands after that block, and the fetcher's output differs from
the claimed issue-body, issue-comments, PR-blocks order.  The slot-1
schedule is admissible: each comment push happens when its own
`fetchPayloadComment` promise resolves, which the enclosing function never
awaits before appending PR data. -/
theorem fetch_order_counterexample :
    fetchAllRelatedData_sched seedC3 (Payload.issuePayload "ip")
        [(1, (rcC3, Payload.commentPayload "cp"))]
        ((fetchAssociatedPRs seedC3 [prRefC3]).map
          (fun pr => fetchPrData seedC3.node_id pr (gqlC3 pr.node_id)))
      ≠ fetchAllRelatedData_seq seedC3 (Payload.issuePayload "ip")
        [(rcC3, Payload.commentPayload "cp")] [prRefC3] gqlC3 := by
  decide

/-- C3 amended: the fire-and-forget issue-comment pushes of
`fetchAllRelatedData` land in promise-resolution order, so the Fetcher's
output matches the claimed order exactly under the sequential schedule:
every comment payload fetch resolves before the associated-PRs processing
begins (slot 0) AND in REST list order.  Precisely: (i) under any slot-0
schedule the output is the issue body, then the comments in resolution
order, then the PR blocks, hence (ii) when the resolution order is the
REST list order the output equals the claimed sequential order; (iii)
under every schedule all produced items carry the seed issue's node id
(and a PR block is unconditionally its body, then its top-level comments,
then its review-thread comments, by definition of `fetchPrData`); and
(iv) the output tables extend append-only with the enriched items as an
order-preserving sublist of whatever stream the scheduler produced, so
table order follows the actual fetch order. -/
theorem fetch_order_amended (seed : SeedIssue) (issuePayload : Payload)
    (comments : List (RestComment × Payload)) (prList : List PrRef)
    (gql : String → GqlPrData) :
    (∀ (resolved : List (RestComment × Payload)) (blocks : List (List ConvItem)),
      fetchAllRelatedData_sched seed issuePayload
          (resolved.map (fun p => (0, p))) blocks
        = issueItem seed issuePayload ::
            (resolved.map (fun p => commentItem seed.node_id p.fst p.snd) ++
             blocks.flatten)) ∧
    fetchAllRelatedData_sched seed issuePayload (comments.map (fun p => (0, p)))
        ((fetchAssociatedPRs seed prList).map
          (fun pr => fetchPrData seed.node_id pr (gql pr.node_id)))
      = fetchAllRelatedData_seq seed issuePayload comments prList gql ∧
    (∀ (tagged : List (Nat × (RestComment × Payload)))
       (prs : List (PrRef × GqlPrData)),
      ∀ it ∈ fetchAllRelatedData_sched seed issuePayload tagged
        (prs.map (fun p => fetchPrData seed.node_id p.fst p.snd)),
      it.issue_id = seed.node_id) ∧
    (∀ (env : Env) (st : AggState) (items : List ConvItem), ∃ l₁ l₂,
      (processItems env seed.node_id st items).issueDataList =
        st.issueDataList ++ l₁ ∧
      (processItems env seed.node_id st items).commentDataList =
        st.commentDataList ++ l₂ ∧
      l₁.Sublist (items.map (enrich env seed.node_id)) ∧
      l₂.Sublist (items.map (enrich env seed.node_id))) := by
  have hslot0 : ∀ (resolved : List (RestComment × Payload))
      (blocks : List (List ConvItem)),
      fetchAllRelatedData_sched seed issuePayload
          (resolved.map (fun p => (0, p))) blocks
        = issueItem seed issuePayload ::
            (resolved.map (fun p => commentItem seed.node_id p.fst p.snd) ++
             blocks.flatten) := by
    intro resolved blocks
    unfold fetchAllRelatedData_sched tagItems
    have htag : ∀ q ∈ (resolved.map (fun p => (0, p))).map
        (fun p : Nat × (RestComment × Payload) =>
          (p.fst, commentItem seed.node_id p.snd.fst p.snd.snd)), q.fst = 0 := by
      intro q hq
      rw [List.map_map] at hq
      obtain ⟨p, _, rfl⟩ := List.mem_map.mp hq
      rfl
    rw [commentsInSlot_eq_of_all 0 _ htag,
        blocksWithSlots_join _ _ 1 (fun p hp => by rw [htag p hp]; exact Nat.one_pos)]
    rw [List.map_map, List.map_map]
    rfl
  refine ⟨hslot0, ?_, ?_,
    fun env st items => processItems_append env seed.node_id items st⟩
  · rw [hslot0 comments ((fetchAssociatedPRs seed prList).map
      (fun pr => fetchPrData seed.node_id pr (gql pr.node_id)))]
    rfl
  · intro tagged prs it hit
    unfold fetchAllRelatedData_sched at hit
    rcases List.mem_cons.mp hit with rfl | h2
    · rfl
    rcases List.mem_append.mp h2 with h3 | h4
    · obtain ⟨p, hp, rfl⟩ := mem_commentsInSlot _ _ _ h3
      obtain ⟨q, _, rfl⟩ := List.mem_map.mp hp
      rfl
    · rcases mem_blocksWithSlots _ _ _ _ h4 with ⟨b, hb, hitb⟩ | ⟨p, hp, rfl⟩
      · obtain ⟨q, _, rfl⟩ := List.mem_map.mp hb
        exact issue_id_of_mem_fetchPrData _ _ _ _ hitb
      · obtain ⟨q, _, rfl⟩ := List.mem_map.mp hp
        rfl

/-- Witness for C3's amended claim: in the one-seed run with no comments
and no PRs, the single scheduled item (the issue body) carries the seed's
node id. -/
theorem fetch_order_amended_witness :
    (issueItem seedC3 (Payload.issuePayload "ip")).issue_id = seedC3.node_id :=
  (fetch_order_amended seedC3 (Payload.issuePayload "ip") [] [] gqlC3).2.2.1 [] []
    (issueItem seedC3 (Payload.issuePayload "ip")) (by decide)

